import Mathlib

/-!
Verification of the behaviour of `src/static/js/analyze.js` ("Analysis UI
Controller"). JavaScript strings are modelled as lists of characters
(`JStr`), JavaScript numbers that may be NaN as `JSNum`, and the external
`object-graph-js` library surface as a structure of abstract functions
(`ResultGraph`, `OGLib`). The default JavaScript `Array.prototype.sort`
(string comparison, stable) is modelled as a stable insertion sort over the
lexicographic order on character lists.
-/

namespace AnalyzeJS

/-- A JavaScript string, modelled as its list of characters. -/
abbrev JStr := List Char

/-- A JavaScript number as used for graph node ids: either NaN or a
(model-level integral) number. -/
inductive JSNum where
  | nan : JSNum
  | int : Int → JSNum
deriving DecidableEq

/-- JavaScript `isNaN` on a graph id. -/
def isNaN : JSNum → Bool
  | .nan => true
  | .int _ => false

/-- JavaScript strict equality `===` on numbers (`NaN === NaN` is false). -/
def jsStrictEq : JSNum → JSNum → Bool
  | .nan, _ => false
  | .int _, .nan => false
  | .int a, .int b => a == b

/-- JavaScript `Number.prototype.toString` for the modelled numbers, used by
the default `Array.prototype.sort` comparison. -/
def numToStr : JSNum → JStr
  | .nan => "NaN".data
  | .int n => (toString n).data

/-- Comparison used by the default JavaScript sort on a number array:
compare the decimal string renderings lexicographically. -/
def jsNumLe (a b : JSNum) : Prop := numToStr a ≤ numToStr b

instance : DecidableRel jsNumLe :=
  fun a b => inferInstanceAs (Decidable (numToStr a ≤ numToStr b))

/-- Default (comparator-free) JavaScript `Array.prototype.sort` on an array
of numbers: stable sort by string rendering. -/
def jsSortNums (l : List JSNum) : List JSNum := List.insertionSort jsNumLe l

/-- Default JavaScript `Array.prototype.sort` on an array of strings:
stable sort in lexicographic (code-unit) order. -/
def jsSortStrs (l : List JStr) : List JStr := List.insertionSort (· ≤ ·) l

/-- JavaScript `String.prototype.split('.')`: split a string at every
occurrence of the dot character; `"".split('.')` is `[""]`. -/
def splitDot : JStr → List JStr
  | [] => [[]]
  | c :: cs =>
    if c = '.' then [] :: splitDot cs
    else
      match splitDot cs with
      | [] => [[c]]
      | h :: t => (c :: h) :: t

/-- JavaScript `Array.prototype.join('.')`. -/
def joinDot : List JStr → JStr
  | [] => []
  | [x] => x
  | x :: y :: rest => x ++ '.' :: joinDot (y :: rest)

/-- JavaScript `Array.prototype.join('\n')`, used when writing the three
display regions. -/
def joinNL : List JStr → JStr
  | [] => []
  | [x] => x
  | x :: y :: rest => x ++ '\n' :: joinNL (y :: rest)

/-- The capability surface of the result graph produced by the external
library's `analysis.intersectDifference` and consumed by `doAnalyses`
(lines 34-109 of `analyze.js`): node id enumeration, the root id,
function / primitive-type classification, shortest access paths, own keys,
and `lookup` (with an optional relative root, matching
`graph.lookup(prefix)` and `graph.lookup(key, id)`). -/
structure ResultGraph where
  allIds : List JSNum
  root : JSNum
  isFunction : JSNum → Bool
  getShortestKey : JSNum → JStr
  getObjectKeys : JSNum → List JStr
  lookup : JStr → Option JSNum → JSNum
  isType : JSNum → Bool

/-- Line 54-56: `var ids = graph.getAllIds().filter(id => !isNaN(id)).sort();`. -/
def analysisIds (g : ResultGraph) : List JSNum :=
  jsSortNums (g.allIds.filter (fun id => !(isNaN id)))

/-- Lines 59-63: APIs are the function ids of the result graph, mapped to
their shortest keys and sorted. -/
def apis (g : ResultGraph) : List JStr :=
  jsSortStrs (((analysisIds g).filter (fun id => g.isFunction id)).map
    (fun id => g.getShortestKey id))

/-- Lines 66-72: non-root, non-function ids mapped to shortest keys and
sorted (`id !== graph.root` is JavaScript strict inequality). -/
def allStructs (g : ResultGraph) : List JStr :=
  jsSortStrs (((analysisIds g).filter
    (fun id => !(jsStrictEq id g.root) && !(g.isFunction id))).map
    (fun id => g.getShortestKey id))

/-- Lines 75-79: keep only "leaf structs", dropping any path for which some
other path in the list is strictly longer and has it as a literal string
prefix (`otherStruct.indexOf(struct) === 0`). -/
def leafStructsFilter (paths : List JStr) : List JStr :=
  paths.filter (fun struct =>
    !(paths.any (fun other => struct.length < other.length && struct.isPrefixOf other)))

/-- Lines 75-79 applied to the analysis pipeline. -/
def structs (g : ResultGraph) : List JStr := leafStructsFilter (allStructs g)

/-- Lines 81-94: for every id, the own keys whose looked-up value is a
primitive type, rendered as `<shortest-key-of-id>.<key>`, flattened across
all ids with `reduce(concat)`. -/
def primitiveEntries (g : ResultGraph) : List JStr :=
  ((analysisIds g).map (fun id =>
    ((g.getObjectKeys id).filter (fun key => g.isType (g.lookup key (some id)))).map
      (fun key => g.getShortestKey id ++ '.' :: key))).foldl
    (fun acc arr => acc ++ arr) []

/-- The reserved function-introspection names of lines 100-102. -/
def reservedNames : List JStr :=
  ["arguments".data, "caller".data, "length".data, "name".data]

/-- Lines 94-104: the filter applied to each flattened primitive entry. The
entry is re-split at dots: the part after the last dot is the candidate key
and the part before it is looked up (one-argument `graph.lookup`); the entry
is kept unless that lookup is a function and the candidate key is reserved. -/
def primFilterKeep (g : ResultGraph) (key : JStr) : Bool :=
  let parts := splitDot key
  let lastSeg := parts.getLastD []
  let ownerPath := joinDot parts.dropLast
  !(g.isFunction (g.lookup ownerPath none)) ||
    !(reservedNames.any (fun n => n == lastSeg))

/-- Lines 81-104: the final sorted primitives list. -/
def primitives (g : ResultGraph) : List JStr :=
  jsSortStrs ((primitiveEntries g).filter (fun key => primFilterKeep g key))

/-- A single write of the text content of one of the three display regions
(`#apis`, `#structs`, `#primitives`). -/
inductive DOMWrite where
  | apisText : JStr → DOMWrite
  | structsText : JStr → DOMWrite
  | primitivesText : JStr → DOMWrite
deriving DecidableEq

/-- The page state touched by the Analysis Engine: the text content of the
three display regions, plus the remaining page state (`rest`), which the
engine never writes. -/
structure DOM where
  apisText : JStr
  structsText : JStr
  primitivesText : JStr
  rest : List JStr
deriving DecidableEq

/-- Apply one text-content write to the page. -/
def applyWrite (d : DOM) : DOMWrite → DOM
  | .apisText s => { d with apisText := s }
  | .structsText s => { d with structsText := s }
  | .primitivesText s => { d with primitivesText := s }

/-- Apply a sequence of text-content writes in order. -/
def applyWrites (d : DOM) (ws : List DOMWrite) : DOM := ws.foldl applyWrite d

/-- The ordered sequence of DOM writes performed by `doAnalyses` on a result
graph: line 39 first clears all three regions (the chained assignment writes
`#primitives`, then `#structs`, then `#apis`), and lines 106-108 then write
the three classified lists joined by newlines. -/
def doAnalysesWrites (g : ResultGraph) : List DOMWrite :=
  [DOMWrite.primitivesText [], DOMWrite.structsText [], DOMWrite.apisText []] ++
  [DOMWrite.apisText (joinNL (apis g)), DOMWrite.structsText (joinNL (structs g)),
    DOMWrite.primitivesText (joinNL (primitives g))]

/-- The external `object-graph-js` library surface used by `doAnalyses`,
abstracted over the type `γ` of decoded graph snapshots. -/
structure OGLib (γ : Type) where
  intersectDifference : List γ → List γ → ResultGraph

/-- Lines 34-109: `doAnalyses(inGraphs, exGraphs)` as a transformation of
the page state. -/
def doAnalyses {γ : Type} (lib : OGLib γ) (inGraphs exGraphs : List γ) (d : DOM) : DOM :=
  applyWrites d (doAnalysesWrites (lib.intersectDifference inGraphs exGraphs))

/-- Lines 114-116: `optValueToURL(label)` prepends the fixed routing
position `/data/` and replaces every space with `/`. -/
def optValueToURL (label : JStr) : JStr :=
  "/data/".data ++ label.map (fun c => if c = ' ' then '/' else c)

/-- Lines 121-128: `inputPaths` maps every input row's value (in row order,
without filtering) to a retrieval path. -/
def inputPaths (inputs : List JStr) : List JStr := inputs.map optValueToURL

/-- The readiness-gate state of one `analyze()` run: the two nullable batch
variables and the record of `doAnalyses` invocations with their arguments. -/
structure OrchState (γ : Type) where
  inGraphs : Option (List γ)
  exGraphs : Option (List γ)
  calls : List (List γ × List γ)

/-- Lines 135-137: `next()` invokes `doAnalyses(inGraphs, exGraphs)` when
both variables are truthy (a JavaScript array, even when empty, is truthy;
`null` is falsy). -/
def next {γ : Type} (s : OrchState γ) : OrchState γ :=
  match s.inGraphs, s.exGraphs with
  | some a, some b => { s with calls := s.calls ++ [(a, b)] }
  | _, _ => s

/-- Lines 140-142: decode every fetched JSON into an ObjectGraph. -/
def getObjectGraphs {J γ : Type} (fromJSON : J → γ) (jsons : List J) : List γ :=
  jsons.map fromJSON

/-- An asynchronous completion event of one of the two retrieval batches,
carrying the decoded JSON list delivered to the `then` callback. -/
inductive BatchEv (J : Type) where
  | inDone : List J → BatchEv J
  | exDone : List J → BatchEv J

/-- Lines 145-152: the effect of one batch-completion callback: store the
decoded graphs in the corresponding variable, then run `next()`. -/
def analyzeStep {J γ : Type} (fromJSON : J → γ) (s : OrchState γ) :
    BatchEv J → OrchState γ
  | .inDone jsons => next { s with inGraphs := some (getObjectGraphs fromJSON jsons) }
  | .exDone jsons => next { s with exGraphs := some (getObjectGraphs fromJSON jsons) }

/-- Line 134: `var inGraphs = null, exGraphs = exPaths.length === 0 ? [] : null;`. -/
def analyzeInit (γ : Type) (exPaths : List JStr) : OrchState γ :=
  { inGraphs := none,
    exGraphs := if exPaths.length = 0 then some [] else none,
    calls := [] }

/-- One `analyze()` action: initialise the gate from the exclude-path list,
then process the batch-completion events in their arrival order. -/
def analyzeRun {J γ : Type} (fromJSON : J → γ) (exPaths : List JStr)
    (evs : List (BatchEv J)) : OrchState γ :=
  evs.foldl (analyzeStep fromJSON) (analyzeInit γ exPaths)

/-- Modelled from the spec: the external `stdlib.loadData` helper (from the
`ya-stdlib-js` dependency, whose source is not part of this repository)
issues one network request per retrieval path in its argument list, so an
empty path list issues no network request. -/
def loadDataRequests (paths : List JStr) : List JStr := paths

/-- A value of the nested environment catalog fetched from `/list`: either a
leaf (any non-object, or `null`) or an object with an ordered list of own
properties. -/
inductive CatVal where
  | leaf : CatVal
  | obj : List (JStr × CatVal) → CatVal

/-- Lines 169-178: `getKeys(o, s)` flattens the nested catalog. A non-object
yields the accumulated name `s`; an object concatenates the flattenings of
its properties in order, extending the accumulated name by
`s ? s + ' ' + key : key` (an empty accumulated name is replaced by the bare
key). -/
def getKeys : CatVal → JStr → List JStr
  | .leaf, s => [s]
  | .obj [], _ => []
  | .obj ((key, v) :: rest), s =>
      getKeys v (if s = [] then key else s ++ ' ' :: key) ++ getKeys (.obj rest) s

/-- Spec reference: the leaf paths of a catalog as lists of key segments, in
depth-first order with properties in enumeration order. -/
def specLeafPaths : CatVal → List (List JStr)
  | .leaf => [[]]
  | .obj [] => []
  | .obj ((key, v) :: rest) =>
      (specLeafPaths v).map (fun p => key :: p) ++ specLeafPaths (.obj rest)

/-- Spec reference: path segments joined by single spaces. -/
def specJoinSegments : List JStr → JStr
  | [] => []
  | [x] => x
  | x :: y :: rest => x ++ ' ' :: specJoinSegments (y :: rest)

/-- All top-level keys of a catalog value are non-empty strings. -/
def topKeysNonEmpty : CatVal → Bool
  | .leaf => true
  | .obj fields => fields.all (fun kv => !(kv.fst.isEmpty))

/-- A concrete result graph: id 1 is a function reachable at `w`, id 0 is a
non-function reachable at `o`; both expose the key `length`. -/
def gFn : ResultGraph :=
  { allIds := [JSNum.int 0, JSNum.int 1]
    root := JSNum.int 0
    isFunction := fun i => i == JSNum.int 1
    getShortestKey := fun i => if i == JSNum.int 1 then "w".data else "o".data
    getObjectKeys := fun _ => ["length".data]
    lookup := fun path _ => if path == "w".data then JSNum.int 1 else JSNum.int 0
    isType := fun _ => true }

/-- A concrete result graph whose only primitive entry comes from the
non-function object at `P` under the dot-containing key `a.length`, while
the unrelated path `P.a` resolves to a function (id 2). -/
def gDotKey : ResultGraph :=
  { allIds := [JSNum.int 0, JSNum.int 1, JSNum.int 2]
    root := JSNum.int 1
    isFunction := fun i => i == JSNum.int 2
    getShortestKey := fun i =>
      if i == JSNum.int 0 then "P".data
      else if i == JSNum.int 1 then "Q".data else "R".data
    getObjectKeys := fun i => if i == JSNum.int 0 then ["a.length".data] else []
    lookup := fun path _ => if path == "P.a".data then JSNum.int 2 else JSNum.int 0
    isType := fun _ => true }

/-- A concrete result graph whose id list contains a malformed (NaN) id. -/
def gNan : ResultGraph :=
  { allIds := [JSNum.int 1, JSNum.nan, JSNum.int 0]
    root := JSNum.int 0
    isFunction := fun i => i == JSNum.int 1
    getShortestKey := fun i => if i == JSNum.int 1 then "f".data else "r".data
    getObjectKeys := fun _ => []
    lookup := fun _ _ => JSNum.int 0
    isType := fun _ => false }

theorem splitDot_ne_nil (l : JStr) : splitDot l ≠ [] := by
  induction l with
  | nil => simp [splitDot]
  | cons c cs ih =>
    simp only [splitDot]
    split
    · simp
    · split
      · simp
      · simp

theorem splitDot_append_dot (xs ys : JStr) :
    splitDot (xs ++ '.' :: ys) = splitDot xs ++ splitDot ys := by
  induction xs with
  | nil => simp [splitDot]
  | cons c cs ih =>
    by_cases hc : c = '.'
    · subst hc
      simp [splitDot, ih]
    · cases h : splitDot cs with
      | nil => exact absurd h (splitDot_ne_nil cs)
      | cons a as => simp [splitDot, hc, ih, h]

theorem splitDot_no_dot (l : JStr) (h : '.' ∉ l) : splitDot l = [l] := by
  induction l with
  | nil => simp [splitDot]
  | cons c cs ih =>
    simp only [List.mem_cons, not_or] at h
    simp only [splitDot, if_neg (Ne.symm h.1), ih h.2]

theorem joinDot_splitDot (l : JStr) : joinDot (splitDot l) = l := by
  induction l with
  | nil => simp [splitDot, joinDot]
  | cons c cs ih =>
    by_cases hc : c = '.'
    · subst hc
      cases h : splitDot cs with
      | nil => exact absurd h (splitDot_ne_nil cs)
      | cons a as =>
        rw [h] at ih
        simp [splitDot, joinDot, h, ih]
    · cases h : splitDot cs with
      | nil => exact absurd h (splitDot_ne_nil cs)
      | cons a as =>
        rw [h] at ih
        cases as with
        | nil =>
          simp only [joinDot] at ih
          simp [splitDot, joinDot, h, hc, ih]
        | cons b bs =>
          simp only [joinDot] at ih
          simp [splitDot, joinDot, h, hc, ih]

/-- C10: a non-object (or null) catalog value yields exactly the accumulated
name; a non-object root therefore yields the single empty-string option; an
object with zero own properties contributes no options at all. -/
theorem getKeys_base_cases :
    (∀ s : JStr, getKeys CatVal.leaf s = [s]) ∧
    getKeys CatVal.leaf [] = [[]] ∧
    (∀ s : JStr, getKeys (CatVal.obj []) s = []) :=
  ⟨fun s => by simp [getKeys], by simp [getKeys], fun s => by simp [getKeys]⟩

/-- C6: every input row (empty rows included) is mapped, in row order, to
exactly one retrieval path: the fixed routing position `/data/` followed by
the row value with every space replaced by `/`; an empty row maps to the
routing position itself. -/
theorem inputPaths_rowwise :
    (∀ (r : JStr) (rows : List JStr),
      inputPaths (r :: rows) = optValueToURL r :: inputPaths rows) ∧
    inputPaths [] = [] ∧
    (∀ rows : List JStr, (inputPaths rows).length = rows.length) ∧
    (∀ label : JStr,
      optValueToURL label
        = "/data/".data ++ label.map (fun c => if c = ' ' then '/' else c)) ∧
    optValueToURL [] = "/data/".data ∧
    optValueToURL "a b c".data = "/data/a/b/c".data := by
  refine ⟨fun r rows => rfl, rfl, fun rows => by simp [inputPaths], fun label => rfl,
    by decide, by decide⟩

/-- C5: with an empty exclude-path list the exclude batch variable starts out
already populated with zero snapshots, the Analysis Engine fires as soon as
the include batch completes and receives an empty exclude sequence, and (per
the spec's model of `stdlib.loadData`) zero network requests are issued for
the exclude side. -/
theorem empty_exclude_short_circuit {J γ : Type} (fromJSON : J → γ) (jsIn : List J) :
    (analyzeInit γ ([] : List JStr)).exGraphs = some [] ∧
    (analyzeRun fromJSON ([] : List JStr) [BatchEv.inDone jsIn]).calls
      = [(jsIn.map fromJSON, ([] : List γ))] ∧
    loadDataRequests ([] : List JStr) = [] := by
  refine ⟨rfl, ?_, rfl⟩
  simp [analyzeRun, analyzeInit, analyzeStep, next, getObjectGraphs]

/-- C2: a struct path is kept by the leaf-struct filter iff no other struct
path in the list is strictly longer and has it as a literal string prefix;
on `{"a", "a.b", "a.b.c", "x"}` exactly `{"a.b.c", "x"}` is retained, and
`"ab"` counts as a prefix of `"abc"` even without a separator. -/
theorem leafStructs_filter_spec :
    (∀ (g : ResultGraph) (s : JStr),
      s ∈ structs g ↔ s ∈ allStructs g ∧
        ¬ ∃ o ∈ allStructs g, s.length < o.length ∧ s <+: o) ∧
    leafStructsFilter ["a".data, "a.b".data, "a.b.c".data, "x".data]
      = ["a.b.c".data, "x".data] ∧
    leafStructsFilter ["ab".data, "abc".data] = ["abc".data] := by
  refine ⟨fun g s => ?_, by decide, by decide⟩
  simp [structs, leafStructsFilter, List.mem_filter, List.any_eq_true,
    List.isPrefixOf_iff_prefix]

/-- C9: the Analysis Engine is idempotent on the page state and its three
output regions do not depend on the previous page state, so running the
analysis twice with the same snapshot sequences and the same library yields
identical output lists. -/
theorem doAnalyses_idempotent {γ : Type} (lib : OGLib γ)
    (inGraphs exGraphs : List γ) (d d₂ : DOM) :
    doAnalyses lib inGraphs exGraphs (doAnalyses lib inGraphs exGraphs d)
      = doAnalyses lib inGraphs exGraphs d ∧
    (doAnalyses lib inGraphs exGraphs d).apisText
      = (doAnalyses lib inGraphs exGraphs d₂).apisText ∧
    (doAnalyses lib inGraphs exGraphs d).structsText
      = (doAnalyses lib inGraphs exGraphs d₂).structsText ∧
    (doAnalyses lib inGraphs exGraphs d).primitivesText
      = (doAnalyses lib inGraphs exGraphs d₂).primitivesText := by
  refine ⟨?_, ?_, ?_, ?_⟩ <;>
    simp [doAnalyses, doAnalysesWrites, applyWrites, applyWrite]

/-- C1 counterexample: with an empty exclude-path list, if the include batch
callback runs before the (still registered) exclude batch callback, both
batches complete yet `doAnalyses` is invoked twice for the one analyze
action. -/
theorem analyze_gate_double_fire :
    (analyzeRun (fun j : Unit => j) ([] : List JStr)
      [BatchEv.inDone [], BatchEv.exDone []]).calls.length = 2 := by decide

/-- C1 (amended): when the exclude-path list is non-empty, `doAnalyses` is
invoked exactly once iff both batches complete, in either order, and never
otherwise; when the exclude-path list is empty, `doAnalyses` fires upon
include-batch completion, fires a second time if the exclude callback runs
after the include callback, and never fires if the include batch never
completes. -/
theorem analyze_gate_invocations {J γ : Type} (fromJSON : J → γ)
    (exPaths : List JStr) (jsIn jsEx : List J) :
    (exPaths ≠ [] →
      ((analyzeRun fromJSON exPaths
          [BatchEv.inDone jsIn, BatchEv.exDone jsEx]).calls.length = 1 ∧
       (analyzeRun fromJSON exPaths
          [BatchEv.exDone jsEx, BatchEv.inDone jsIn]).calls.length = 1 ∧
       (analyzeRun fromJSON exPaths [BatchEv.inDone jsIn]).calls.length = 0 ∧
       (analyzeRun fromJSON exPaths [BatchEv.exDone jsEx]).calls.length = 0 ∧
       (analyzeRun fromJSON exPaths
          ([] : List (BatchEv J)) : OrchState γ).calls.length = 0)) ∧
    ((analyzeRun fromJSON ([] : List JStr)
        [BatchEv.exDone jsEx, BatchEv.inDone jsIn]).calls.length = 1 ∧
     (analyzeRun fromJSON ([] : List JStr)
        [BatchEv.inDone jsIn, BatchEv.exDone jsEx]).calls.length = 2 ∧
     (analyzeRun fromJSON ([] : List JStr) [BatchEv.inDone jsIn]).calls.length = 1 ∧
     (analyzeRun fromJSON ([] : List JStr) [BatchEv.exDone jsEx]).calls.length = 0 ∧
     (analyzeRun fromJSON ([] : List JStr)
        ([] : List (BatchEv J)) : OrchState γ).calls.length = 0) := by
  constructor
  · intro hne
    have h0 : ¬ exPaths.length = 0 := by
      simpa [List.length_eq_zero] using hne
    refine ⟨?_, ?_, ?_, ?_, ?_⟩ <;>
      simp [analyzeRun, analyzeInit, analyzeStep, next, getObjectGraphs, h0]
  · refine ⟨?_, ?_, ?_, ?_, ?_⟩ <;>
      simp [analyzeRun, analyzeInit, analyzeStep, next, getObjectGraphs]

/-- C1 witness: a run with a non-empty exclude list in which the include
batch completes first invokes the engine exactly once. -/
theorem analyze_gate_invocations_witness :
    (analyzeRun (fun j : Unit => j) ["x".data]
      [BatchEv.inDone [], BatchEv.exDone []]).calls.length = 1 :=
  ((analyze_gate_invocations (fun j : Unit => j) ["x".data] [] []).1 (by decide)).1

/-- C7: the id list used for classification is exactly the result graph's id
list restricted to non-NaN ids and sorted by the default sort; every id used
is well-formed; and the three output lists are unchanged under any change of
the raw id list that preserves its non-NaN part (so malformed ids are
dropped before classification and cause no failure of the run). -/
theorem analysisIds_nan_filter (g : ResultGraph) (l : List JSNum)
    (h : l.filter (fun i => !(isNaN i)) = g.allIds.filter (fun i => !(isNaN i))) :
    analysisIds g = jsSortNums (g.allIds.filter (fun i => !(isNaN i))) ∧
    (∀ i ∈ analysisIds g, isNaN i = false) ∧
    apis { g with allIds := l } = apis g ∧
    structs { g with allIds := l } = structs g ∧
    primitives { g with allIds := l } = primitives g := by
  have hids : analysisIds { g with allIds := l } = analysisIds g := by
    simp only [analysisIds]
    rw [h]
  refine ⟨rfl, ?_, ?_, ?_, ?_⟩
  · intro i hi
    have hmem : i ∈ g.allIds.filter (fun i => !(isNaN i)) := by
      simpa [analysisIds, jsSortNums, List.mem_insertionSort] using hi
    have := (List.mem_filter.mp hmem).2
    simpa using this
  · simp [apis, hids]
  · simp [structs, allStructs, leafStructsFilter, hids]
  · simp [primitives, primitiveEntries, primFilterKeep, hids]

/-- C7 witness: on a graph whose id list contains a NaN, inserting a further
NaN into the id list leaves the APIs output unchanged. -/
theorem analysisIds_nan_filter_witness :
    apis { gNan with allIds := gNan.allIds ++ [JSNum.nan] } = apis gNan :=
  (analysisIds_nan_filter gNan (gNan.allIds ++ [JSNum.nan]) (by decide)).2.2.1

/-- C8: on every invocation the engine's first three DOM writes clear the
three display regions (before any analysis-dependent write), the final page
state holds exactly the three classified lists joined by newlines with all
other page state unchanged, and each of the three lists is sorted. -/
theorem doAnalyses_dom_effect {γ : Type} (lib : OGLib γ)
    (inGraphs exGraphs : List γ) (d : DOM) :
    (doAnalysesWrites (lib.intersectDifference inGraphs exGraphs)).take 3
      = [DOMWrite.primitivesText [], DOMWrite.structsText [], DOMWrite.apisText []] ∧
    doAnalyses lib inGraphs exGraphs d =
      { apisText := joinNL (apis (lib.intersectDifference inGraphs exGraphs)),
        structsText := joinNL (structs (lib.intersectDifference inGraphs exGraphs)),
        primitivesText := joinNL (primitives (lib.intersectDifference inGraphs exGraphs)),
        rest := d.rest } ∧
    List.Sorted (· ≤ ·) (apis (lib.intersectDifference inGraphs exGraphs)) ∧
    List.Sorted (· ≤ ·) (structs (lib.intersectDifference inGraphs exGraphs)) ∧
    List.Sorted (· ≤ ·) (primitives (lib.intersectDifference inGraphs exGraphs)) := by
  refine ⟨rfl, ?_, List.sorted_insertionSort _ _, ?_, List.sorted_insertionSort _ _⟩
  · simp [doAnalyses, doAnalysesWrites, applyWrites, applyWrite]
  · exact List.Pairwise.filter _ (List.sorted_insertionSort _ _)

/-- C3 counterexample: the entry `P.a.length`, produced for the non-function
owner at `P` under the key `a.length` (which is not a reserved name), is
nevertheless dropped, because the filter re-splits the entry at its last dot
and the unrelated path `P.a` resolves to a function. -/
theorem primFilter_dotted_key_cex :
    primitiveEntries gDotKey = ["P.a.length".data] ∧
    gDotKey.isFunction (gDotKey.lookup "P".data none) = false ∧
    "a.length".data ∉ reservedNames ∧
    primitives gDotKey = [] := by decide

/-- C3 (amended): for an entry `<prefix>.<key>` whose key contains no dot,
the entry is dropped iff the object looked up at `<prefix>` is a function
and `<key>` is one of the reserved function-introspection names (for keys
containing a dot, the filter instead re-splits the entry at its last dot). -/
theorem primFilter_reserved_iff (g : ResultGraph) (p k : JStr) (hk : '.' ∉ k) :
    primFilterKeep g (p ++ '.' :: k) = false ↔
      g.isFunction (g.lookup p none) = true ∧ k ∈ reservedNames := by
  have hsplit : splitDot (p ++ '.' :: k) = splitDot p ++ [k] := by
    rw [splitDot_append_dot, splitDot_no_dot k hk]
  simp only [primFilterKeep, hsplit, List.dropLast_concat, List.getLastD_concat,
    joinDot_splitDot]
  simp [List.any_eq_true]

/-- C3 witness: on a graph with a function at `w` exposing the key `length`,
the entry `w.length` is dropped. -/
theorem primFilter_reserved_iff_witness :
    primFilterKeep gFn ("w".data ++ '.' :: "length".data) = false :=
  (primFilter_reserved_iff gFn "w".data "length".data (by decide)).mpr
    ⟨by decide, by decide⟩

theorem specJoinSegments_append (s key : JStr) (p : List JStr) :
    specJoinSegments ((s ++ ' ' :: key) :: p)
      = s ++ ' ' :: specJoinSegments (key :: p) := by
  cases p with
  | nil => simp [specJoinSegments]
  | cons q qs => simp [specJoinSegments]

theorem getKeys_nonempty_prefix (v : CatVal) (s : JStr) :
    s ≠ [] → getKeys v s = (specLeafPaths v).map (fun p => specJoinSegments (s :: p)) := by
  induction v, s using getKeys.induct with
  | case1 s =>
    intro _
    simp [getKeys, specLeafPaths, specJoinSegments]
  | case2 s =>
    intro _
    simp [getKeys, specLeafPaths]
  | case3 key v rest s ih1 ih2 =>
    intro hs
    rw [dif_neg hs] at ih1
    have h1 := ih1 (by simp)
    have h2 := ih2 hs
    simp only [getKeys, if_neg hs, specLeafPaths, List.map_append, List.map_map, h1, h2]
    congr 1
    refine List.map_congr_left (fun p _ => ?_)
    rw [Function.comp_apply, specJoinSegments_append]
    simp [specJoinSegments]

/-- C4 counterexample: on the catalog `{"": {"b": leaf}}` the flattened
option list is `["b"]`, but the leaf's full path with segments joined by
single spaces is `" b"`: the empty top-level key is collapsed instead of
contributing a leading space. -/
theorem getKeys_empty_key_cex :
    getKeys (CatVal.obj [([], CatVal.obj [("b".data, CatVal.leaf)])]) []
      ≠ (specLeafPaths (CatVal.obj [([], CatVal.obj [("b".data, CatVal.leaf)])])).map
          specJoinSegments := by
  simp only [getKeys, specLeafPaths, specJoinSegments]
  decide

/-- C4 (amended): for every nested catalog whose top-level keys are
non-empty, the flattened option list (root call with empty accumulated name)
contains exactly one entry per leaf, each equal to the leaf's full path with
segments joined by single spaces, in depth-first order with properties in
enumeration order (a leading empty-named key would instead be collapsed). -/
theorem getKeys_flattens_leaf_paths (o : CatVal)
    (h : topKeysNonEmpty o = true) :
    getKeys o [] = (specLeafPaths o).map specJoinSegments := by
  cases o with
  | leaf => simp [getKeys, specLeafPaths, specJoinSegments]
  | obj fields =>
    revert h
    induction fields with
    | nil =>
      intro _
      simp [getKeys, specLeafPaths]
    | cons kv rest ih =>
      intro h
      obtain ⟨key, v⟩ := kv
      simp only [topKeysNonEmpty, List.all_cons, Bool.and_eq_true] at h
      have hkey : key ≠ [] := by
        intro hk
        rw [hk] at h
        exact absurd h.1 (by decide)
      have hrest : topKeysNonEmpty (CatVal.obj rest) = true := by
        simp only [topKeysNonEmpty]
        exact h.2
      have h1 := getKeys_nonempty_prefix v key hkey
      have h2 := ih hrest
      simp [getKeys, specLeafPaths, h1, h2, Function.comp]

/-- C4 witness: on the catalog `{a: {b: leaf, c: leaf}, d: leaf}` the
flattened option list equals the space-joined leaf paths
`["a b", "a c", "d"]`. -/
theorem getKeys_flattens_leaf_paths_witness :
    getKeys (CatVal.obj [("a".data, CatVal.obj [("b".data, CatVal.leaf),
        ("c".data, CatVal.leaf)]), ("d".data, CatVal.leaf)]) []
      = (specLeafPaths (CatVal.obj [("a".data, CatVal.obj [("b".data, CatVal.leaf),
          ("c".data, CatVal.leaf)]), ("d".data, CatVal.leaf)])).map specJoinSegments :=
  getKeys_flattens_leaf_paths
    (CatVal.obj [("a".data, CatVal.obj [("b".data, CatVal.leaf),
      ("c".data, CatVal.leaf)]), ("d".data, CatVal.leaf)]) (by decide)

end AnalyzeJS
